import Mathlib

/-!
Verification model of the logquery core (crates `line-index-reader`,
`line-cache` and the repository glue in `tui/src/repository.rs`).

Files are modelled at the byte level: a file is a `List Nat` of byte
values, a line terminator is the byte 10, carriage return is 13.  I/O is
modelled by passing the file content as `Option (List Nat)`: `none`
stands for an open failure (the modelled failure mode); reads from an
opened in-memory file always succeed and return the requested span,
which is the regular-file contract the code relies on.

The Rust code reads lines into `String` buffers, so every `read_line`
call validates the read bytes as UTF-8, and the indexing loop compares a
char index against a byte count; both effects are modelled exactly (see
`utf8Valid` and `index_lines_go`).
-/

namespace LogQuery

/-- A UTF-8 continuation byte, `0x80..=0xBF`. -/
def isCont (b : Nat) : Bool := decide (128 ≤ b ∧ b ≤ 191)

/-- Validity of a byte sequence as UTF-8, as checked by the standard
library whenever `read_line` appends read bytes to a `String`
(`core::str::from_utf8`).  The accepted sequences (RFC 3629): one byte
`00..=7F`; lead `C2..=DF` plus one continuation; `E0 A0..=BF` plus one
continuation; leads `E1..=EC` and `EE..=EF` plus two continuations;
`ED 80..=9F` plus one continuation (no surrogates); `F0 90..=BF` plus two
continuations; leads `F1..=F3` plus three continuations; `F4 80..=8F` plus
two continuations (no code points beyond `10FFFF`); lead bytes `C0`, `C1`
and `F5..=FF` are never valid. -/
def utf8Valid : List Nat → Bool
  | [] => true
  | b :: rest =>
    if b ≤ 127 then utf8Valid rest
    else if 194 ≤ b ∧ b ≤ 223 then
      match rest with
      | c1 :: rest2 => isCont c1 && utf8Valid rest2
      | [] => false
    else if b = 224 then
      match rest with
      | c1 :: c2 :: rest2 => decide (160 ≤ c1 ∧ c1 ≤ 191) && isCont c2 && utf8Valid rest2
      | _ => false
    else if 225 ≤ b ∧ b ≤ 236 then
      match rest with
      | c1 :: c2 :: rest2 => isCont c1 && isCont c2 && utf8Valid rest2
      | _ => false
    else if b = 237 then
      match rest with
      | c1 :: c2 :: rest2 => decide (128 ≤ c1 ∧ c1 ≤ 159) && isCont c2 && utf8Valid rest2
      | _ => false
    else if 238 ≤ b ∧ b ≤ 239 then
      match rest with
      | c1 :: c2 :: rest2 => isCont c1 && isCont c2 && utf8Valid rest2
      | _ => false
    else if b = 240 then
      match rest with
      | c1 :: c2 :: c3 :: rest2 =>
        decide (144 ≤ c1 ∧ c1 ≤ 191) && isCont c2 && isCont c3 && utf8Valid rest2
      | _ => false
    else if 241 ≤ b ∧ b ≤ 243 then
      match rest with
      | c1 :: c2 :: c3 :: rest2 => isCont c1 && isCont c2 && isCont c3 && utf8Valid rest2
      | _ => false
    else if b = 244 then
      match rest with
      | c1 :: c2 :: c3 :: rest2 =>
        decide (128 ≤ c1 ∧ c1 ≤ 143) && isCont c2 && isCont c3 && utf8Valid rest2
      | _ => false
    else false

/-- The scanning loop of `index_lines` (line-index-reader/src/lib.rs:197-226)
at the byte level.  Each iteration `read_line` consumes one chunk — the bytes
up to and including the first terminator 10, or to end of file — and
validates it as UTF-8: an invalid chunk makes `read_line` return `Err`,
which silently ends the `while let Ok` loop with the offsets recorded so
far (in particular the invalid chunk is not recorded).  For a valid chunk
the loop pushes the chunk start and then tests
`buf.chars().nth(read_bytes - 1) == Some('\n')` — a char index against a
byte count, so the test holds iff every char of the chunk is a single byte
(all bytes `<= 127`) and the last byte is 10; a valid chunk containing a
multi-byte char yields `None` (its char count is below its byte count) and
the loop stops even though the line was terminated.  Here `chunkStart` is
the position of the current chunk start, `pos` the position of the next
byte, and `acc` the reversed bytes of the current chunk so far.  At end of
file: an empty chunk means `read_line` read 0 bytes (plain end of loop); a
non-empty valid chunk is a provisional final line (pushed, then the loop
stops because its last char is not the terminator); a non-empty invalid
chunk is an error, not pushed. -/
def index_lines_go : List Nat → Nat → Nat → List Nat → List Nat
  | [], chunkStart, _, acc =>
    if acc.isEmpty then []
    else if utf8Valid acc.reverse then [chunkStart] else []
  | b :: rest, chunkStart, pos, acc =>
    if b == 10 then
      let chunk := (10 :: acc).reverse
      if utf8Valid chunk then
        chunkStart ::
          (if chunk.all (fun x => decide (x ≤ 127))
           then index_lines_go rest (pos + 1) (pos + 1) []
           else [])
      else []
    else index_lines_go rest chunkStart (pos + 1) (b :: acc)

/-- `index_lines` scanning a file from stream position `pos`
(line-index-reader/src/lib.rs:197-226): the first `read_line` starts a line
at `pos`. -/
def index_lines (data : List Nat) (pos : Nat) : List Nat :=
  index_lines_go (data.drop pos) pos pos []

/-- One trailing byte 13 is removed (`BufRead::lines` trims `\r` after
trimming `\n`). -/
def stripCR (l : List Nat) : List Nat :=
  if l.getLast? = some 13 then l.dropLast else l

/-- `std::io::BufRead::lines().collect::<Result<Vec<_>, _>>()` over a byte
buffer, with `acc` the reversed bytes of the line currently being read.
Each line is read by `read_line`, so each chunk (terminator included) is
validated as UTF-8; the first invalid chunk makes the `collect` return
`Err`, modelled as `none` for the whole buffer.  A valid terminated line is
trimmed of its byte 10 and then of one trailing 13; a non-empty
unterminated tail is a final line kept verbatim (`.lines()` trims `\r` only
after trimming `\n`). -/
def rust_lines_go : List Nat → List Nat → Option (List (List Nat))
  | [], acc =>
    if acc.isEmpty then some []
    else if utf8Valid acc.reverse then some [acc.reverse] else none
  | b :: rest, acc =>
    if b == 10 then
      if utf8Valid ((10 :: acc).reverse) then
        (rust_lines_go rest []).map fun ls => stripCR acc.reverse :: ls
      else none
    else rust_lines_go rest (b :: acc)

/-- `.lines()` collected over a whole buffer: the split lines, or `none` on
an invalid-UTF-8 line. -/
def rust_lines (data : List Nat) : Option (List (List Nat)) :=
  rust_lines_go data []

namespace LineIndexReader

/-- `IndexConsistency` (line-index-reader/src/lib.rs:166-170). -/
inductive IndexConsistency where
  | consistent
  | inconsistent (index : Nat)
deriving DecidableEq

/-- `Error` (line-index-reader/src/lib.rs:228-234), extended with a
`panicked` outcome that models a Rust panic (out-of-range slice index,
failed `assert!`), which the spec never allows. -/
inductive Err where
  | ioError
  | inconsistentIndex (index : Nat)
  | panicked
deriving DecidableEq

/-- `LineIndexReader::index` (line-index-reader/src/lib.rs:26-37): open the
file, scan it from the start. -/
def index (file : Option (List Nat)) : Except Err (List Nat) :=
  match file with
  | none => .error .ioError
  | some data => .ok (index_lines data 0)

/-- `read_lines` (line-index-reader/src/lib.rs:172-195): seek to `offset`,
read `limit` bytes (to end of file when `limit` is `none`), split the buffer
into lines with `.lines()` collected into a `Result` — `none` models the
`Err` returned when a line of the buffer is not valid UTF-8. -/
def read_lines (data : List Nat) (offset : Nat) (limit : Option Nat) :
    Option (List (List Nat)) :=
  let buf := match limit with
    | some l => (data.drop offset).take l
    | none => data.drop offset
  rust_lines buf

/-- `LineIndexReader::lines` (line-index-reader/src/lib.rs:60-100) for the
half-open range `start..e`, bounds already resolved.  An absent start entry
yields an empty result; `limit` is `offsets[e] - offset` via `checked_sub`
when entry `e` exists; an open failure is swallowed into an empty result
(`return Lines::default()`), and a `read_lines` failure (an invalid-UTF-8
line in the read span) likewise becomes empty via `unwrap_or_default`. -/
def lines (offsets : List Nat) (file : Option (List Nat)) (start e : Nat) : List (List Nat) :=
  match offsets[start]? with
  | none => []
  | some offset =>
    let limit := (offsets[e]?).bind fun v => if offset ≤ v then some (v - offset) else none
    match file with
    | none => []
    | some data => (read_lines data offset limit).getD []

/-- `LineIndexReader::line` (line-index-reader/src/lib.rs:55-57):
`lines(line..=line)`, i.e. the half-open range `n..n+1`, first element. -/
def line (offsets : List Nat) (file : Option (List Nat)) (n : Nat) : Option (List Nat) :=
  (lines offsets file n (n + 1)).head?

/-- The loop of `LineIndexReader::consistency`
(line-index-reader/src/lib.rs:141-160) over the table entries from index 1
on.  For entry `offset`: `assert!(offset > 0)` (panic on 0); if
`offset - 1 > file_len` the index is inconsistent here; otherwise the byte at
`offset - 1` is read — at exactly end of file `read_u8` fails with an I/O
error (`UnexpectedEof`) — and must be a line terminator.  The seek in the
Rust code cannot fail for a regular file and its position check never fires. -/
def consistencyAux (data : List Nat) : Nat → List Nat → Except Err IndexConsistency
  | _, [] => .ok .consistent
  | idx, offset :: rest =>
    if offset = 0 then .error .panicked
    else if data.length < offset - 1 then .ok (.inconsistent idx)
    else match data[offset - 1]? with
      | some byte =>
        if byte = 10 then consistencyAux data (idx + 1) rest
        else .ok (.inconsistent idx)
      | none => .error .ioError

/-- `LineIndexReader::consistency` (line-index-reader/src/lib.rs:135-163). -/
def consistency (offsets : List Nat) (file : Option (List Nat)) : Except Err IndexConsistency :=
  match file with
  | none => .error .ioError
  | some data => consistencyAux data 1 (offsets.drop 1)

/-- `LineIndexReader::update` (line-index-reader/src/lib.rs:102-131):
re-verify consistency, rescan from the last recorded offset, extend the table
with `&offsets[1..]` of the rescan result — which panics (slice start index 1
out of range) when the rescan produced no offsets — and report the number of
appended entries capped at `u32::MAX`. -/
def update (offsets : List Nat) (file : Option (List Nat)) : Except Err (Nat × List Nat) :=
  match consistency offsets file with
  | .error e => .error e
  | .ok (.inconsistent i) => .error (.inconsistentIndex i)
  | .ok .consistent =>
    match file with
    | none => .error .ioError
    | some data =>
      let old_len := offsets.length
      let offset := offsets.getLast?.getD 0
      let new_offsets := index_lines data offset
      if new_offsets.isEmpty then .error .panicked
      else
        let merged := offsets ++ new_offsets.drop 1
        .ok (min (merged.length - old_len) (2 ^ 32 - 1), merged)

/-- The offset table as seen by the caller after an `update` call: the table
is mutated only by the final `extend`, so on any error it is unchanged. -/
def update_apply (offsets : List Nat) (file : Option (List Nat)) : List Nat :=
  match update offsets file with
  | .ok (_, t) => t
  | .error _ => offsets

end LineIndexReader

namespace LineCache

/-- The key-value view of the cache store (`mini_moka::sync::Cache<u32, Line>`):
an association list, most recent insertion first.  Capacity-driven eviction is
modelled separately (see `cache_insert` below); this view covers `get` and
`insert` as used by `LineCache::lines` (line-cache/src/lib.rs:47-105). -/
abbrev CacheT := List (Nat × List Nat)

/-- `Cache::get` on the key-value view. -/
def cget : CacheT → Nat → Option (List Nat)
  | [], _ => none
  | (a, v) :: c, k => if k = a then some v else cget c k

/-- The cache-hit walk of `LineCache::lines` (line-cache/src/lib.rs:64-66):
`(start..end).map_while(|i| cache.get(&i))`, here over `n` consecutive keys
from `i`. -/
def cache_hits (c : CacheT) : Nat → Nat → List (List Nat)
  | _, 0 => []
  | i, n + 1 =>
    match cget c i with
    | some v => v :: cache_hits c (i + 1) n
    | none => []

/-- `u32::saturating_add`. -/
def satAdd (x y : Nat) : Nat := min (x + y) (2 ^ 32 - 1)

/-- `u32::saturating_mul`. -/
def satMul (x y : Nat) : Nat := min (x * y) (2 ^ 32 - 1)

/-- The insertion loop of `LineCache::lines` (line-cache/src/lib.rs:98-100):
`for (index, line) in prefetch.zip(&new_lines) { cache.insert(index, line) }`,
inserting values under consecutive keys from `k`. -/
def insert_all : CacheT → Nat → List (List Nat) → CacheT
  | c, _, [] => c
  | c, k, v :: vs => insert_all ((k, v) :: c) (k + 1) vs

/-- `LineCache::lines` (line-cache/src/lib.rs:47-105) for the half-open range
`start..e`, with `reader m w` standing for `self.reader.lines(m..w)`.
Returns the value handed to the caller, the cache store after the call, and
the fetched window (`none` when the cached prefix already covers the range).
The fetch window end is `end.saturating_add(len.saturating_mul(10).min(2048))`
with `len` the requested span; the zip with the window range truncates the
inserted lines to the window size, while the returned tail takes
`range.len() = e - m` lines from the full fetch result. -/
def lines (c : CacheT) (reader : Nat → Nat → List (List Nat)) (start e : Nat) :
    List (List Nat) × CacheT × Option (Nat × Nat) :=
  let cached := cache_hits c start (e - start)
  let m := start + cached.length
  if e ≤ m then (cached, c, none)
  else
    let len := e - start
    let w := satAdd e (min (satMul len 10) 2048)
    let fetched := reader m w
    (cached ++ fetched.take (e - m), insert_all c m (fetched.take (w - m)), some (m, w))

/-- `LineCache::line` (line-cache/src/lib.rs:39-45): the cached value if
present, otherwise the first element of `self.lines(index..index)` — note the
argument is the half-open, hence empty, range `index..index`. -/
def line (c : CacheT) (reader : Nat → Nat → List (List Nat)) (n : Nat) :
    Option (List Nat) :=
  match cget c n with
  | some v => some v
  | none => (lines c reader n n).1.head?

/-- The element walk of `LineCache::lines_opt` (line-cache/src/lib.rs:107-128):
`(start..end).map(|i| cache.get(&i))`, over `n` consecutive keys from `i`. -/
def linesOptGo (c : CacheT) : Nat → Nat → List (Option (List Nat))
  | _, 0 => []
  | i, n + 1 => cget c i :: linesOptGo c (i + 1) n

/-- `LineCache::lines_opt` (line-cache/src/lib.rs:107-128) for the half-open
range `start..e`: the cached value or `none` per line number, no fetch. -/
def lines_opt (c : CacheT) (start e : Nat) : List (Option (List Nat)) :=
  linesOptGo c start (e - start)

end LineCache

/-- The weigher configured in `LineCache::new` (line-cache/src/lib.rs:25-31):
`value.len().try_into().unwrap_or(u32::MAX).clamp(1, u32::MAX)`, i.e. the
byte length saturated at `u32::MAX` and floored at 1. -/
def weigher (v : List Nat) : Nat := max 1 (min v.length (2 ^ 32 - 1))

/-- `max_capacity` configured in `LineCache::new` (line-cache/src/lib.rs:18):
256 MiB. -/
def CACHE_MAX_CAPACITY : Nat := 256 * 1024 * 1024

/-- Total weight of the weighted store, entries listed least recent first. -/
def totalWeight (es : List (Nat × List Nat)) : Nat :=
  (es.map fun p => weigher p.2).sum

/-- Modelled from the spec: the weighted LRU store of the third-party
`mini_moka::sync::Cache` behind `LineCache::new` is not part of this
repository; per the eviction policy in the spec, after an insertion entries are
evicted in least-recently-used order (here: from the front of the list,
least recent first) until the total weight is at or below capacity. -/
def evict (cap : Nat) : List (Nat × List Nat) → List (Nat × List Nat)
  | [] => []
  | e :: es => if totalWeight (e :: es) ≤ cap then e :: es else evict cap es

/-- Modelled from the spec: insertion into the weighted LRU store — replace
any entry with the same key, append the new entry at the most-recent end,
then evict until the total weight is within capacity. -/
def cache_insert (cap : Nat) (k : Nat) (v : List Nat)
    (es : List (Nat × List Nat)) : List (Nat × List Nat) :=
  evict cap ((es.filter fun p => p.1 != k) ++ [(k, v)])

/-- `mpsc::channel::<LinesRequest>(1024)` (tui/src/repository.rs:50). -/
def LINES_CHANNEL_CAPACITY : Nat := 1024

/-- `Sender::try_send` on a bounded channel modelled by its queue length:
succeeds (queue grows) iff the queue is below capacity. -/
def try_send (qlen cap : Nat) : Option Nat :=
  if qlen < cap then some (qlen + 1) else none

/-- `lines.iter().map_while(Clone::clone)` (tui/src/repository.rs:146-150):
the values of the longest all-`some` prefix. -/
def mapWhileSome : List (Option (List Nat)) → List (List Nat)
  | [] => []
  | none :: _ => []
  | some v :: rest => v :: mapWhileSome rest

/-- Outcome of a `RepoLines::lines` call: the returned lines and the fetch
queue length afterwards, or a panic. -/
inductive RepoResult where
  | panicked
  | ok (lines : List (List Nat)) (queue : Nat)
deriving DecidableEq

/-- `RepoLines::lines` for `Repository` (tui/src/repository.rs:132-151),
for a tracked file whose cache store is `c` and with `qlen` requests pending
on the fetch channel: read `lines_opt(from..to)` from the in-memory cache
only; if any entry is missing, `try_send` a fetch request and `.unwrap()` the
result — a panic when the channel is full; return the longest contiguous
prefix of cached lines. -/
def repo_lines (c : LineCache.CacheT) (qlen lo hi : Nat) : RepoResult :=
  let ls := LineCache.lines_opt c lo hi
  if ls.any fun o => o.isNone then
    match try_send qlen LINES_CHANNEL_CAPACITY with
    | some q => .ok (mapWhileSome ls) q
    | none => .panicked
  else .ok (mapWhileSome ls) qlen

/-! ## The consistency walk -/

/-- The consistency loop walks the entries in order and stops at the first
violation: if the first `j` entries are valid (positive offset, preceding
byte inside the file and equal to the terminator) and entry `j` has an offset
exceeding the file length by more than one, the walk reports the index of
entry `j`. -/
theorem consistencyAux_first_violation (data : List Nat) :
    ∀ (l : List Nat) (idx j : Nat),
      (∀ i, i < j →
        ∃ o, l[i]? = some o ∧ 0 < o ∧ o - 1 < data.length ∧ data[o - 1]? = some 10) →
      (∃ o, l[j]? = some o ∧ data.length + 1 < o) →
      LineIndexReader.consistencyAux data idx l = .ok (.inconsistent (idx + j)) := by
  intro l
  induction l with
  | nil =>
    intro idx j hval hviol
    obtain ⟨o, ho, _⟩ := hviol
    simp at ho
  | cons o0 rest ih =>
    intro idx j hval hviol
    cases j with
    | zero =>
      obtain ⟨o, ho, hlen⟩ := hviol
      simp only [List.getElem?_cons_zero, Option.some.injEq] at ho
      subst ho
      have h1 : ¬ o0 = 0 := by omega
      have h2 : data.length < o0 - 1 := by omega
      simp [LineIndexReader.consistencyAux, h1, h2]
    | succ j =>
      obtain ⟨o, ho0, hpos, hlt, hbyte⟩ := hval 0 (Nat.succ_pos j)
      simp only [List.getElem?_cons_zero, Option.some.injEq] at ho0
      subst ho0
      have h1 : ¬ o0 = 0 := by omega
      have h2 : ¬ data.length < o0 - 1 := by omega
      have hval' : ∀ i, i < j →
          ∃ o, rest[i]? = some o ∧ 0 < o ∧ o - 1 < data.length ∧ data[o - 1]? = some 10 := by
        intro i hi
        obtain ⟨o', ho', h'⟩ := hval (i + 1) (by omega)
        rw [List.getElem?_cons_succ] at ho'
        exact ⟨o', ho', h'⟩
      have hviol' : ∃ o, rest[j]? = some o ∧ data.length + 1 < o := by
        obtain ⟨o', ho', h'⟩ := hviol
        rw [List.getElem?_cons_succ] at ho'
        exact ⟨o', ho', h'⟩
      have hrec := ih (idx + 1) j hval' hviol'
      have harith : idx + 1 + j = idx + (j + 1) := by omega
      rw [harith] at hrec
      simp [LineIndexReader.consistencyAux, h1, h2, hbyte, hrec]

/-- Claim C3 (amended): for a built index and `k ≥ 1`, if every entry before
`k` is still valid in the current file and the file has been truncated so
that its length is strictly smaller than (the recorded byte offset of line
`k`) minus one, then `consistency` walks the table in order and returns
`Inconsistent(k)` at the first violation.  (When the length equals exactly
that offset minus one, the check instead fails with `IoError`: reading the
preceding byte hits end of file — see the counterexample.) -/
theorem claim3_consistency_truncated (offsets data : List Nat) (k : Nat)
    (hk : 1 ≤ k)
    (hvalid : ∀ i, 1 ≤ i → i < k →
      ∃ o, offsets[i]? = some o ∧ 0 < o ∧ o - 1 < data.length ∧ data[o - 1]? = some 10)
    (hviol : ∃ o, offsets[k]? = some o ∧ data.length + 1 < o) :
    LineIndexReader.consistency offsets (some data) = .ok (.inconsistent k) := by
  have hval' : ∀ i, i < k - 1 →
      ∃ o, (offsets.drop 1)[i]? = some o ∧ 0 < o ∧ o - 1 < data.length ∧
        data[o - 1]? = some 10 := by
    intro i hi
    rw [List.getElem?_drop]
    exact hvalid (1 + i) (by omega) (by omega)
  have hviol' : ∃ o, (offsets.drop 1)[k - 1]? = some o ∧ data.length + 1 < o := by
    rw [List.getElem?_drop]
    have h1k : 1 + (k - 1) = k := by omega
    rw [h1k]
    exact hviol
  have := consistencyAux_first_violation data (offsets.drop 1) 1 (k - 1) hval' hviol'
  have h1k : 1 + (k - 1) = k := by omega
  rw [h1k] at this
  simpa [LineIndexReader.consistency] using this

/-! ## Cache store lemmas -/

namespace LineCache

/-- The cache-hit walk returns at most as many lines as the range holds. -/
theorem cache_hits_length_le (c : CacheT) : ∀ (n i : Nat), (cache_hits c i n).length ≤ n := by
  intro n
  induction n with
  | zero => intro i; simp [cache_hits]
  | succ n ih =>
    intro i
    rcases h : cget c i with _ | v
    · simp [cache_hits, h]
    · simp only [cache_hits, h, List.length_cons]
      have := ih (i + 1)
      omega

/-- Every line returned by the cache-hit walk is the cached value of the
corresponding line number. -/
theorem cache_hits_getElem (c : CacheT) :
    ∀ (n i j : Nat), j < (cache_hits c i n).length →
      cget c (i + j) = (cache_hits c i n)[j]? := by
  intro n
  induction n with
  | zero => intro i j hj; simp [cache_hits] at hj
  | succ n ih =>
    intro i j hj
    rcases h : cget c i with _ | v
    · simp [cache_hits, h] at hj
    · simp only [cache_hits, h] at hj ⊢
      cases j with
      | zero => simpa using h
      | succ j =>
        rw [List.getElem?_cons_succ]
        have := ih (i + 1) j (by simpa using hj)
        have harith : i + (j + 1) = (i + 1) + j := by omega
        rw [harith]
        exact this

/-- The cache-hit walk stops only at the end of the range or at the first
uncached line number. -/
theorem cache_hits_stop (c : CacheT) :
    ∀ (n i : Nat), (cache_hits c i n).length = n ∨
      cget c (i + (cache_hits c i n).length) = none := by
  intro n
  induction n with
  | zero => intro i; left; simp [cache_hits]
  | succ n ih =>
    intro i
    rcases h : cget c i with _ | v
    · right; simpa [cache_hits, h] using h
    · rcases ih (i + 1) with h1 | h1
      · left; simp [cache_hits, h, h1]
      · right
        simp only [cache_hits, h, List.length_cons]
        have harith : i + ((cache_hits c (i + 1) n).length + 1)
            = (i + 1) + (cache_hits c (i + 1) n).length := by omega
        rw [harith]
        exact h1

/-- Keys outside the inserted run are untouched by the insertion loop. -/
theorem cget_insert_all_out :
    ∀ (vs : List (List Nat)) (c : CacheT) (k j : Nat),
      j < k ∨ k + vs.length ≤ j → cget (insert_all c k vs) j = cget c j := by
  intro vs
  induction vs with
  | nil => intro c k j _; rfl
  | cons v rest ih =>
    intro c k j hj
    simp only [List.length_cons] at hj
    have h1 := ih ((k, v) :: c) (k + 1) j (by omega)
    simp only [insert_all] at *
    rw [h1]
    have hne : ¬ j = k := by omega
    simp [cget, hne]

/-- Every key in the inserted run maps to the corresponding inserted line
after the insertion loop. -/
theorem cget_insert_all_in :
    ∀ (vs : List (List Nat)) (c : CacheT) (k j : Nat),
      k ≤ j → j < k + vs.length → cget (insert_all c k vs) j = vs[j - k]? := by
  intro vs
  induction vs with
  | nil =>
    intro c k j h1 h2
    simp only [List.length_nil, Nat.add_zero] at h2
    exact absurd h2 (by omega)
  | cons v rest ih =>
    intro c k j h1 h2
    simp only [insert_all]
    by_cases hjk : j = k
    · rw [cget_insert_all_out rest ((k, v) :: c) (k + 1) j (Or.inl (by omega))]
      simp [cget, hjk]
    · have hrec := ih ((k, v) :: c) (k + 1) j (by omega)
        (by simp only [List.length_cons] at h2; omega)
      rw [hrec]
      have hx : j - k = (j - (k + 1)) + 1 := by omega
      rw [hx, List.getElem?_cons_succ]

/-- The element walk of `lines_opt` collapsed through `map_while` is exactly the
cache-hit walk. -/
theorem mapWhileSome_linesOptGo (c : CacheT) :
    ∀ (n i : Nat), mapWhileSome (linesOptGo c i n) = cache_hits c i n := by
  intro n
  induction n with
  | zero => intro i; rfl
  | succ n ih =>
    intro i
    rcases h : cget c i with _ | v <;>
      simp [linesOptGo, cache_hits, mapWhileSome, h, ih]

end LineCache

/-- After eviction the total weight is within capacity (the empty store has
weight zero). -/
theorem totalWeight_evict_le (cap : Nat) : ∀ es, totalWeight (evict cap es) ≤ cap := by
  intro es
  induction es with
  | nil => simp [evict, totalWeight]
  | cons e es ih =>
    by_cases h : totalWeight (e :: es) ≤ cap
    · simpa [evict, h] using h
    · simpa [evict, h] using ih

/-- Any sequence of insertions starting within capacity stays within
capacity. -/
theorem totalWeight_foldl_le (ops : List (Nat × List Nat)) :
    ∀ es, totalWeight es ≤ CACHE_MAX_CAPACITY →
      totalWeight (ops.foldl (fun es p => cache_insert CACHE_MAX_CAPACITY p.1 p.2 es) es)
        ≤ CACHE_MAX_CAPACITY := by
  induction ops with
  | nil => intro es h; simpa using h
  | cons p ops ih =>
    intro es h
    simp only [List.foldl_cons]
    exact ih _ (totalWeight_evict_le _ _)

/-- The saturating window arithmetic of the fetch window
(line-cache/src/lib.rs:77-79) written with one outer clamp. -/
theorem sat_window (a b : Nat) :
    LineCache.satAdd b (min (LineCache.satMul (b - a) 10) 2048)
      = min (b + min (10 * (b - a)) 2048) (2 ^ 32 - 1) := by
  unfold LineCache.satAdd LineCache.satMul
  omega

/-! ## Claims -/

/-- Claim C1: the Line Cache operation `line(n)` returns the cached value when
present, and otherwise should perform a 1-line range fetch so that on a cold
cache over an indexed file with at least `n+1` lines it returns the content
of line `n`.  The code instead fetches the half-open range `index..index`,
which is empty: on the file `"a\n"` (one indexed line) a cold-cache `line(0)`
returns `none` even though the Offset Index `line(0)` itself returns `"a"`. -/
theorem claim1_lineCache_line_cold_none :
    LineCache.line []
        (fun s e => LineIndexReader.lines (index_lines [97, 10] 0) (some [97, 10]) s e) 0
      = none ∧
    (index_lines [97, 10] 0).length = 1 ∧
    LineIndexReader.line (index_lines [97, 10] 0) (some [97, 10]) 0 = some [97] := by
  refine ⟨rfl, rfl, rfl⟩

/-- Claim C2: on an unchanged file `update` should succeed with 0 newly
appended lines.  For the empty file the rescan yields no offsets and
`extend(&offsets[1..])` panics (slice start index 1 out of range for a slice
of length 0): building an index over an empty file succeeds with an empty
table, and the subsequent no-change `update` panics instead of returning
`Ok(0)`. -/
theorem claim2_update_empty_noChange_panics :
    LineIndexReader.index (some []) = .ok [] ∧
    LineIndexReader.update [] (some []) = .error .panicked := by
  refine ⟨rfl, rfl⟩

/-- Counterexample to claim C3 as stated: for the file `"a\nb\n"` the offset
table is `[0, 2]`; truncating the file to `"a"` makes its length 1, strictly
smaller than the recorded offset 2 of line 1 (and entry 0 is still valid),
yet `consistency` returns `Err(IoError)` — `read_u8` at the preceding byte
hits end of file — not `Ok(Inconsistent(1))`. -/
theorem claim3_cex_truncation_ioError :
    LineIndexReader.consistency [0, 2] (some [97]) = .error .ioError ∧
    ¬ LineIndexReader.consistency [0, 2] (some [97]) = .ok (.inconsistent 1) := by
  have he : LineIndexReader.consistency [0, 2] (some [97]) = .error .ioError := rfl
  exact ⟨he, fun h => Except.noConfusion (he.symm.trans h)⟩

/-- Witness for claim C3 (amended) at a concrete input: table `[0, 2]`, file
truncated to empty, violation at entry 1. -/
theorem claim3_truncation_witness :
    LineIndexReader.consistency [0, 2] (some []) = .ok (.inconsistent 1) :=
  claim3_consistency_truncated [0, 2] [] 1 (by decide)
    (fun i hi1 hi2 => absurd hi2 (by omega))
    ⟨2, by decide, by decide⟩

/-- Claim C4: after every build and update the offset table should be the
strictly increasing list of line-start offsets with entry 0 equal to 0 for a
non-empty file.  After a build on an empty file and a subsequent `update`
once the file has grown to `"a\nb\n"`, the code drops the first rescan offset
unconditionally: the table becomes `[2]` — entry 0 is 2, not 0, the table has
1 entry although the file has 2 lines, and the update reports 1 new line. -/
theorem claim4_update_after_empty_build_breaks_table :
    LineIndexReader.index (some ([] : List Nat)) = .ok [] ∧
    LineIndexReader.update [] (some [97, 10, 98, 10]) = .ok (1, [2]) ∧
    index_lines [97, 10, 98, 10] 0 = [0, 2] ∧
    ((rust_lines [97, 10, 98, 10]).getD []).length = 2 ∧
    ¬ ([2] : List Nat)[0]? = some 0 := by
  refine ⟨rfl, rfl, rfl, rfl, by decide⟩

/-- Counterexample to claim C5 as stated: an open failure during a `lines`
call does not surface as an `IoError` — the call returns the empty `Lines`
value, indistinguishable from a genuine success (compare the successful read
of the same range below). -/
theorem claim5_cex_lines_swallow :
    LineIndexReader.lines [0] none 0 1 = [] ∧
    LineIndexReader.lines [0] (some [97]) 0 1 = [[97]] := by
  refine ⟨rfl, rfl⟩

/-- Claim C5 (amended): open failures surface as `IoError` for `build` and
`update`, and no failure modifies the offset table; but `line` and `lines`
swallow I/O failures, logging them and returning an empty successful result
instead of an error. -/
theorem claim5_error_propagation :
    LineIndexReader.index none = .error .ioError ∧
    (∀ offsets, LineIndexReader.update offsets none = .error .ioError) ∧
    (∀ offsets file e, LineIndexReader.update offsets file = .error e →
      LineIndexReader.update_apply offsets file = offsets) ∧
    (∀ offsets a b, LineIndexReader.lines offsets none a b = []) ∧
    (∀ offsets n, LineIndexReader.line offsets none n = none) := by
  refine ⟨rfl, fun offsets => rfl, ?_, ?_, ?_⟩
  · intro offsets file e h
    simp [LineIndexReader.update_apply, h]
  · intro offsets a b
    rcases h : offsets[a]? with _ | o <;> simp [LineIndexReader.lines, h]
  · intro offsets n
    rcases h : offsets[n]? with _ | o <;>
      simp [LineIndexReader.line, LineIndexReader.lines, h]

/-- Witness for claim C5 (amended): the error branch of the table-preserving
conjunct at a concrete input. -/
theorem claim5_propagation_witness :
    LineIndexReader.update_apply [0, 2] none = [0, 2] :=
  claim5_error_propagation.2.2.1 [0, 2] none .ioError
    (claim5_error_propagation.2.1 [0, 2])

/-- Counterexample to claim C6 as stated: line numbers are `u32` and the
window end is computed with `saturating_add`.  With an empty cache and the
requested range `(2^32-2)..(2^32-1)` (span 1), the fetched window recorded by
the model ends at `2^32-1`, not at `(2^32-1) + min(10·1, 2048)` as the claim
requires. -/
theorem claim6_cex_window_saturates :
    (LineCache.lines [] (fun _ _ => []) (2 ^ 32 - 2) (2 ^ 32 - 1)).2.2
        = some (2 ^ 32 - 2, 2 ^ 32 - 1) ∧
    ¬ (2 ^ 32 - 1 : Nat) = (2 ^ 32 - 1) + min (10 * ((2 ^ 32 - 1) - (2 ^ 32 - 2))) 2048 := by
  refine ⟨by decide, by decide⟩

/-- Claim C6 (amended): for a half-open range `a..b`, let `m` be the end of
the cache-hit prefix (the first miss) and let the fetch window end be
`min (b + min (10·(b-a), 2048)) (2^32-1)` — the claimed end clamped by the
`u32` saturating addition.  Then: the hits are exactly the cached values of
`a..m`; `m` is the range end or the first uncached number; if `m = b` the
call returns the hits with no fetch; and if `m < b` the call fetches exactly
the window `m..w`, returns the hits concatenated with the fetched lines
truncated to the requested span `b - m`, inserts every fetched line (up to
the window size) keyed by its absolute line number — entries beyond the
requested span included — and leaves every other cache key unchanged. -/
theorem claim6_lineCache_lines_spec (c : LineCache.CacheT)
    (reader : Nat → Nat → List (List Nat)) (a b m w : Nat)
    (hm : m = a + (LineCache.cache_hits c a (b - a)).length)
    (hw : w = min (b + min (10 * (b - a)) 2048) (2 ^ 32 - 1)) :
    (∀ j, j < (LineCache.cache_hits c a (b - a)).length →
      LineCache.cget c (a + j) = (LineCache.cache_hits c a (b - a))[j]?) ∧
    ((LineCache.cache_hits c a (b - a)).length = b - a ∨ LineCache.cget c m = none) ∧
    (b ≤ m → LineCache.lines c reader a b = (LineCache.cache_hits c a (b - a), c, none)) ∧
    (m < b →
      LineCache.lines c reader a b
        = (LineCache.cache_hits c a (b - a) ++ (reader m w).take (b - m),
           LineCache.insert_all c m ((reader m w).take (w - m)),
           some (m, w)) ∧
      (∀ j, j < ((reader m w).take (w - m)).length →
        LineCache.cget (LineCache.insert_all c m ((reader m w).take (w - m))) (m + j)
          = ((reader m w).take (w - m))[j]?) ∧
      (∀ k, k < m ∨ m + ((reader m w).take (w - m)).length ≤ k →
        LineCache.cget (LineCache.insert_all c m ((reader m w).take (w - m))) k
          = LineCache.cget c k)) := by
  subst hm
  subst hw
  refine ⟨fun j hj => LineCache.cache_hits_getElem c (b - a) a j hj,
    LineCache.cache_hits_stop c (b - a) a, ?_, ?_⟩
  · intro hle
    simp only [LineCache.lines]
    rw [if_pos hle]
  · intro hlt
    have hw' := sat_window a b
    refine ⟨?_, ?_, ?_⟩
    · simp only [LineCache.lines]
      rw [if_neg (by omega), hw']
    · intro j hj
      have h := LineCache.cget_insert_all_in
        ((reader (a + (LineCache.cache_hits c a (b - a)).length)
            (min (b + min (10 * (b - a)) 2048) (2 ^ 32 - 1))).take
          (min (b + min (10 * (b - a)) 2048) (2 ^ 32 - 1)
            - (a + (LineCache.cache_hits c a (b - a)).length)))
        c (a + (LineCache.cache_hits c a (b - a)).length)
        (a + (LineCache.cache_hits c a (b - a)).length + j) (by omega) (by omega)
      simpa using h
    · intro k hk
      exact LineCache.cget_insert_all_out _ c _ k hk

/-- Witness for claim C6 (amended): cache holding line 5, request `5..7`,
reader returning two lines; the hypotheses are discharged at the concrete
input. -/
theorem claim6_spec_witness :
    6 < 7 ∧
    LineCache.lines [(5, [97])] (fun _ _ => [[98], [99]]) 5 7
      = (LineCache.cache_hits [(5, [97])] 5 (7 - 5)
           ++ ((fun _ _ => [[98], [99]] : Nat → Nat → List (List Nat)) 6 27).take (7 - 6),
         LineCache.insert_all [(5, [97])] 6
           (((fun _ _ => [[98], [99]] : Nat → Nat → List (List Nat)) 6 27).take (27 - 6)),
         some (6, 27)) := by
  refine ⟨by decide, ?_⟩
  exact ((claim6_lineCache_lines_spec [(5, [97])] (fun _ _ => [[98], [99]]) 5 7 6 27
    (by decide) (by decide)).2.2.2 (by decide)).1

/-- Claim C7: for an indexed file with total line count `L` (the
offset-table length) and `a ≤ b`, `lines(a..b)` should return exactly
`min b L - a` lines.  The indexing loop compares a char index with a byte
count (`buf.chars().nth(read_bytes - 1)`, line-index-reader/src/lib.rs:214),
so it stops at the first terminated line containing a multi-byte UTF-8
character: for the file `"é\nx"` (bytes `C3 A9 0A 78`) the table is `[0]`
(`L = 1`) although the file has two lines, and `lines(0..1)` — entry 1
being absent, the read extends to end of file — returns 2 lines instead of
`min 1 L - 0 = 1`.  An invalid-UTF-8 byte breaks the law too: for
`61 0A FF` the table is `[0]` and `lines(0..1)` returns 0 lines, the
`.lines()` collect error being collapsed to empty by `unwrap_or_default`. -/
theorem claim7_count_violated_by_multibyte :
    index_lines [195, 169, 10, 120] 0 = [0] ∧
    ((rust_lines [195, 169, 10, 120]).getD []).length = 2 ∧
    (LineIndexReader.lines (index_lines [195, 169, 10, 120] 0)
        (some [195, 169, 10, 120]) 0 1).length = 2 ∧
    ¬ (LineIndexReader.lines (index_lines [195, 169, 10, 120] 0)
        (some [195, 169, 10, 120]) 0 1).length
      = min 1 (index_lines [195, 169, 10, 120] 0).length - 0 ∧
    index_lines [97, 10, 255] 0 = [0] ∧
    LineIndexReader.lines (index_lines [97, 10, 255] 0) (some [97, 10, 255]) 0 1 = [] := by
  refine ⟨rfl, rfl, rfl, by decide, rfl, rfl⟩

/-- Counterexample to claim C8 as stated: the weight of an entry is its content
length in bytes floored at 1 only up to the `u32` clamp in the weigher; a
value of `2^32` bytes weighs `2^32 - 1`, not `max(2^32, 1)`. -/
theorem claim8_cex_weigher_clamp :
    ¬ weigher (List.replicate (2 ^ 32) 0) = max (List.replicate (2 ^ 32) (0 : Nat)).length 1 := by
  intro h
  simp only [weigher, List.length_replicate] at h
  omega

/-- Claim C8 (amended): the weight of each entry is its content length in bytes
clamped to `1..u32::MAX`; after every insertion the store evicts
least-recently-used entries until the total weight is at or below the
configured 256 MiB capacity; consequently, for every insertion sequence
starting from the empty store, the total cached weight never exceeds the
capacity. -/
theorem claim8_cache_weight_bounded :
    (∀ v : List Nat, weigher v = max 1 (min v.length (2 ^ 32 - 1))) ∧
    (∀ k v es, totalWeight (cache_insert CACHE_MAX_CAPACITY k v es) ≤ CACHE_MAX_CAPACITY) ∧
    (∀ ops : List (Nat × List Nat),
      totalWeight (ops.foldl (fun es p => cache_insert CACHE_MAX_CAPACITY p.1 p.2 es) [])
        ≤ CACHE_MAX_CAPACITY) := by
  refine ⟨fun v => rfl, fun k v es => totalWeight_evict_le _ _,
    fun ops => totalWeight_foldl_le ops [] (by simp [totalWeight])⟩

/-- Claim C9: when a query observes gaps and the fetch-request channel is
full, the request should be dropped without a panic.  The code calls
`try_send(...).unwrap()`: with the channel at its capacity of 1024 pending
requests and a cache miss, the call panics; with a free slot it enqueues the
request and returns normally. -/
theorem claim9_repo_lines_full_channel_panics :
    repo_lines [] 1024 0 1 = .panicked ∧
    repo_lines [] 0 0 1 = .ok [] 1 := by
  refine ⟨rfl, rfl⟩

/-- Counterexample to claim C10 as stated: with the fetch channel full
(1024 pending requests) and a gap in the requested range, `lines` panics on
the `unwrap` instead of returning the cached prefix. -/
theorem claim10_cex_full_channel :
    repo_lines [(0, [97])] 1024 0 2 = .panicked := by
  exact rfl

/-- Claim C10 (amended): provided the fetch-request channel is not full,
`lines(name, from, to)` touches no file: it returns the longest contiguous
prefix of cached lines starting at `from` — stopping at the first uncached
number, so a cached line after a gap is omitted — and missing entries at
most enqueue one background fetch request (the model reads only the
in-memory store and the queue length). -/
theorem claim10_repo_lines_cached_run (c : LineCache.CacheT) (qlen a b : Nat)
    (hq : qlen < LINES_CHANNEL_CAPACITY) :
    ∃ res q2, repo_lines c qlen a b = .ok res q2 ∧
      res = LineCache.cache_hits c a (b - a) ∧
      res.length ≤ b - a ∧
      (∀ j, j < res.length → LineCache.cget c (a + j) = res[j]?) ∧
      (res.length = b - a ∨ LineCache.cget c (a + res.length) = none) ∧
      (q2 = qlen ∨ q2 = qlen + 1) := by
  have hres : mapWhileSome (LineCache.lines_opt c a b) = LineCache.cache_hits c a (b - a) :=
    LineCache.mapWhileSome_linesOptGo c (b - a) a
  have hlen := LineCache.cache_hits_length_le c (b - a) a
  have hget := LineCache.cache_hits_getElem c (b - a) a
  have hstop := LineCache.cache_hits_stop c (b - a) a
  by_cases hmiss : ((LineCache.lines_opt c a b).any fun o => o.isNone) = true
  · exact ⟨LineCache.cache_hits c a (b - a), qlen + 1,
      by simp [repo_lines, hmiss, try_send, hq, hres], rfl, hlen, hget, hstop, Or.inr rfl⟩
  · exact ⟨LineCache.cache_hits c a (b - a), qlen,
      by simp [repo_lines, hmiss, hres], rfl, hlen, hget, hstop, Or.inl rfl⟩

/-- Witness for claim C10 (amended): cache holding lines 0 and 2 but not 1,
query `0..3`, empty queue — the hypothesis is discharged at the concrete
input. -/
theorem claim10_cached_run_witness :
    0 < LINES_CHANNEL_CAPACITY ∧
    (∃ res q2, repo_lines [(0, [97]), (2, [98])] 0 0 3 = .ok res q2 ∧
      res = LineCache.cache_hits [(0, [97]), (2, [98])] 0 (3 - 0) ∧
      res.length ≤ 3 - 0 ∧
      (∀ j, j < res.length → LineCache.cget [(0, [97]), (2, [98])] (0 + j) = res[j]?) ∧
      (res.length = 3 - 0 ∨ LineCache.cget [(0, [97]), (2, [98])] (0 + res.length) = none) ∧
      (q2 = 0 ∨ q2 = 0 + 1)) :=
  ⟨by decide, claim10_repo_lines_cached_run [(0, [97]), (2, [98])] 0 0 3 (by decide)⟩

end LogQuery
